import Mathlib

/-!
# Verification of the pktrackv1 order-tracking dashboard

A shallow embedding in Lean 4 of the row-normalization / aggregation /
summary pipeline of the order-tracking dashboard, together with the
client-side rendering helpers found in `src/dashboard/app.js` and
`src/barcode_dashboard/app.js`.

The repository ships the client JavaScript; the server-side pipeline
(`dashboard/server.py`, `dashboard/build_dashboard_data.py`) is referenced
by the READMEs but its source is not part of the checkout, so those parts
are modelled from the specification text, as marked on each definition.
-/

namespace PkTrack

/-! ## Data model: raw rows (dashboard variant) -/

/-- Modelled from the spec: a RawRow of the order dashboard, a mapping from
the logical field labels Prefix, Ref Number, Stage, USER, Added Time to
string values (missing fields are represented by the empty string). -/
structure RawRow where
  pfx : String
  refNumber : String
  stage : String
  user : String
  addedTime : String
deriving Repr, DecidableEq, Inhabited

/-- Modelled from the spec: a field is blank when its string value is empty
(presence/absence is the only validation the system performs). -/
def isBlankField (s : String) : Bool :=
  s = ""

/-- Modelled from the spec: the inheritable fields of the order dashboard are
USER and Stage; a row inherits only when every inheritable field is blank. -/
def allInheritableBlank (r : RawRow) : Bool :=
  isBlankField r.user && isBlankField r.stage

/-- Modelled from the spec: if every inheritable field of `cur` is blank,
overwrite those fields with the values of the previous emitted row `prev`;
otherwise keep `cur` verbatim (no partial inheritance). -/
def inheritBlank (prev cur : RawRow) : RawRow :=
  if allInheritableBlank cur then
    { cur with user := prev.user, stage := prev.stage }
  else
    cur

/-- Modelled from the spec: the tail of the normalizer fold, carrying the most
recently emitted normalized row as the accumulator. -/
def normalizeGo (prev : RawRow) : List RawRow → List RawRow
  | [] => []
  | r :: rs =>
    let r' := inheritBlank prev r
    r' :: normalizeGo r' rs

/-- Modelled from the spec: `normalize` iterates rows in original order; the
first row is emitted unchanged regardless of blankness, every later row is
subject to whole-row blank inheritance from the previously emitted row. -/
def normalize : List RawRow → List RawRow
  | [] => []
  | r :: rs => r :: normalizeGo r rs

theorem normalizeGo_length (prev : RawRow) (rs : List RawRow) :
    (normalizeGo prev rs).length = rs.length := by
  induction rs generalizing prev with
  | nil => rfl
  | cons r rs ih => simp [normalizeGo, ih]

theorem normalize_length (rows : List RawRow) :
    (normalize rows).length = rows.length := by
  cases rows with
  | nil => rfl
  | cons r rs => simp [normalize, normalizeGo_length]

theorem normalizeGo_get_zero (prev : RawRow) (rs : List RawRow)
    (h : 0 < rs.length) :
    (normalizeGo prev rs).get ⟨0, by rw [normalizeGo_length]; exact h⟩ =
      inheritBlank prev (rs.get ⟨0, h⟩) := by
  cases rs with
  | nil => exact absurd h (by simp)
  | cons r rs => rfl

theorem normalizeGo_get_succ (rs : List RawRow) (prev : RawRow) (i : Nat)
    (h : i + 1 < rs.length) :
    (normalizeGo prev rs).get ⟨i + 1, by rw [normalizeGo_length]; exact h⟩ =
      inheritBlank
        ((normalizeGo prev rs).get ⟨i, by rw [normalizeGo_length]; omega⟩)
        (rs.get ⟨i + 1, h⟩) := by
  induction rs generalizing prev i with
  | nil => exact absurd h (by simp)
  | cons r rs ih =>
    cases i with
    | zero =>
      have h0 : 0 < rs.length := by simpa using h
      simpa [normalizeGo] using normalizeGo_get_zero (inheritBlank prev r) rs h0
    | succ j =>
      have hj : j + 1 < rs.length := by simpa using h
      simpa [normalizeGo] using ih (inheritBlank prev r) j hj

theorem normalize_get_succ (rows : List RawRow) (i : Nat)
    (h : i + 1 < rows.length) :
    (normalize rows).get ⟨i + 1, by rw [normalize_length]; exact h⟩ =
      inheritBlank
        ((normalize rows).get ⟨i, by rw [normalize_length]; omega⟩)
        (rows.get ⟨i + 1, h⟩) := by
  cases rows with
  | nil => exact absurd h (by simp)
  | cons r rs =>
    have hr : i < rs.length := by simpa using h
    cases i with
    | zero =>
      simpa [normalize] using normalizeGo_get_zero r rs hr
    | succ j =>
      have hj : j + 1 < rs.length := by simpa using h
      simpa [normalize] using normalizeGo_get_succ rs r j hj

/-- If no row of `rs` has all inheritable fields blank, the normalizer tail
leaves the list untouched. -/
theorem normalizeGo_eq_self (rs : List RawRow)
    (h : ∀ r ∈ rs, allInheritableBlank r = false) (prev : RawRow) :
    normalizeGo prev rs = rs := by
  induction rs generalizing prev with
  | nil => rfl
  | cons r rs ih =>
    have hr : allInheritableBlank r = false := h r (by simp)
    have htail : ∀ x ∈ rs, allInheritableBlank x = false := by
      intro x hx
      exact h x (by simp [hx])
    simp [normalizeGo, inheritBlank, hr, ih htail]

/-- If no row of `rows` has all inheritable fields blank, `normalize` is the
identity. -/
theorem normalize_eq_self (rows : List RawRow)
    (h : ∀ r ∈ rows, allInheritableBlank r = false) :
    normalize rows = rows := by
  cases rows with
  | nil => rfl
  | cons r rs =>
    have htail : ∀ x ∈ rs, allInheritableBlank x = false := by
      intro x hx
      exact h x (by simp [hx])
    simp [normalize, normalizeGo_eq_self rs htail]

/-- C7: for every non-empty row sequence, normalize emits the first row
unchanged, regardless of whether its inheritable fields are blank. -/
theorem C7_first_row_unchanged (rows : List RawRow) (h : rows ≠ []) :
    (normalize rows).head? = rows.head? := by
  cases rows with
  | nil => exact absurd rfl h
  | cons r rs => rfl

theorem C7_witness :
    ((⟨"A", "1", "", "", "t"⟩ : RawRow) :: []) ≠ [] ∧
      (normalize [(⟨"A", "1", "", "", "t"⟩ : RawRow)]).head? =
        [(⟨"A", "1", "", "", "t"⟩ : RawRow)].head? := by
  refine ⟨by simp, ?_⟩
  exact C7_first_row_unchanged [(⟨"A", "1", "", "", "t"⟩ : RawRow)] (by simp)

/-- C6: normalize is idempotent on any sequence whose rows all have every
inheritable field non-blank: applying normalize to its own output on such a
sequence produces identical output. -/
theorem C6_idempotent_on_populated (rows : List RawRow)
    (h : ∀ r ∈ rows, r.user ≠ "" ∧ r.stage ≠ "") :
    normalize (normalize rows) = normalize rows := by
  have hnb : ∀ r ∈ rows, allInheritableBlank r = false := by
    intro r hr
    have := h r hr
    simp [allInheritableBlank, isBlankField, this.1]
  rw [normalize_eq_self rows hnb, normalize_eq_self rows hnb]

theorem C6_witness :
    (∀ r ∈ [(⟨"A", "1", "Paperwork Received", "x", "t1"⟩ : RawRow),
            (⟨"A", "1", "Product Received", "y", "t2"⟩ : RawRow)],
        r.user ≠ "" ∧ r.stage ≠ "") ∧
      normalize (normalize
          [(⟨"A", "1", "Paperwork Received", "x", "t1"⟩ : RawRow),
           (⟨"A", "1", "Product Received", "y", "t2"⟩ : RawRow)]) =
        normalize
          [(⟨"A", "1", "Paperwork Received", "x", "t1"⟩ : RawRow),
           (⟨"A", "1", "Product Received", "y", "t2"⟩ : RawRow)] := by
  refine ⟨by decide, ?_⟩
  exact C6_idempotent_on_populated _ (by decide)

/-- C1: for every ordered row sequence and every index `i+1`, if the row at
`i+1` has every inheritable field blank, then position `i+1` of the
normalized output equals position `i` of the output on the inheritable
fields (USER, Stage) and equals the raw row on all other fields; and if at
least one inheritable field is non-blank, position `i+1` keeps the raw row's
own values verbatim (no partial inheritance). -/
theorem C1_blank_row_inheritance (rows : List RawRow) (i : Nat)
    (h : i + 1 < rows.length) :
    (normalize rows).get ⟨i + 1, by rw [normalize_length]; exact h⟩ =
      (if allInheritableBlank (rows.get ⟨i + 1, h⟩) then
        { rows.get ⟨i + 1, h⟩ with
            user := ((normalize rows).get ⟨i, by rw [normalize_length]; omega⟩).user
            stage := ((normalize rows).get ⟨i, by rw [normalize_length]; omega⟩).stage }
      else rows.get ⟨i + 1, h⟩) := by
  simpa [inheritBlank] using normalize_get_succ rows i h

theorem C1_witness :
    0 + 1 < ([(⟨"A", "1", "Paperwork Received", "x", "t1"⟩ : RawRow),
              (⟨"B", "2", "", "", "t2"⟩ : RawRow)] : List RawRow).length ∧
      (normalize [(⟨"A", "1", "Paperwork Received", "x", "t1"⟩ : RawRow),
                  (⟨"B", "2", "", "", "t2"⟩ : RawRow)]).get ⟨0 + 1, by decide⟩ =
        (⟨"B", "2", "Paperwork Received", "x", "t2"⟩ : RawRow) := by
  refine ⟨by decide, ?_⟩
  exact (C1_blank_row_inheritance
      [(⟨"A", "1", "Paperwork Received", "x", "t1"⟩ : RawRow),
       (⟨"B", "2", "", "", "t2"⟩ : RawRow)] 0 (by decide)).trans (by decide)

/-! ## Order aggregation -/

/-- Modelled from the spec: the composite group key is the trimmed Prefix,
a separator, and the trimmed Ref Number. -/
def rowKey (r : RawRow) : String :=
  r.pfx.trim ++ "-" ++ r.refNumber.trim

/-- Modelled from the spec: a row with a fully empty key is skipped and does
not form a group. -/
def emptyKeyRow (r : RawRow) : Bool :=
  r.pfx.trim = "" && r.refNumber.trim = ""

/-- Modelled from the spec: an OrderGroup holds the set of distinct
users/submitters seen, the set of distinct stage values seen, the latest
timestamp seen and the count of contributing rows. -/
structure OrderGroup where
  usersSeen : List String
  stagesSeen : List String
  latestTime : String
  rowCount : Nat
deriving Repr, DecidableEq, Inhabited

/-- Modelled from the spec: the group state created before any row
contributes. -/
def emptyGroup : OrderGroup :=
  ⟨[], [], "", 0⟩

/-- Modelled from the spec: add a value to a seen-set unless it is blank or
already present (the sets hold distinct non-blank values). -/
def addSeen (v : String) (l : List String) : List String :=
  if v = "" ∨ v ∈ l then l else l ++ [v]

/-- Modelled from the spec: fold one row into its group — extend the seen
sets, keep the lexicographically greater timestamp, bump the row count. -/
def updateGroup (r : RawRow) (g : OrderGroup) : OrderGroup :=
  { usersSeen := addSeen r.user g.usersSeen
    stagesSeen := addSeen r.stage g.stagesSeen
    latestTime := if g.latestTime < r.addedTime then r.addedTime else g.latestTime
    rowCount := g.rowCount + 1 }

/-- Modelled from the spec: upsert a row into the association list of
groups — update the existing entry for its key or create a fresh one. -/
def upsert (k : String) (r : RawRow) :
    List (String × OrderGroup) → List (String × OrderGroup)
  | [] => [(k, updateGroup r emptyGroup)]
  | (k', g) :: rest =>
    if k' = k then (k', updateGroup r g) :: rest
    else (k', g) :: upsert k r rest

/-- Modelled from the spec: one step of the aggregation fold; rows with a
fully empty key are skipped. -/
def aggStep (acc : List (String × OrderGroup)) (r : RawRow) :
    List (String × OrderGroup) :=
  if emptyKeyRow r then acc else upsert (rowKey r) r acc

/-- Modelled from the spec: the aggregation fold over the row sequence. -/
def aggregateFrom (acc : List (String × OrderGroup)) :
    List RawRow → List (String × OrderGroup)
  | [] => acc
  | r :: rs => aggregateFrom (aggStep acc r) rs

/-- Modelled from the spec: `aggregate` groups normalized rows by composite
key into OrderGroups. -/
def aggregate (rows : List RawRow) : List (String × OrderGroup) :=
  aggregateFrom [] rows

/-- Association-list lookup over the group mapping. -/
def lookupG : List (String × OrderGroup) → String → Option OrderGroup
  | [], _ => none
  | (k', g) :: rest, k => if k' = k then some g else lookupG rest k

/-- The stage set recorded for key `k`, empty when the key is absent. -/
def stagesOf (m : List (String × OrderGroup)) (k : String) : List String :=
  ((lookupG m k).getD emptyGroup).stagesSeen

/-- Modelled from the spec: the configured paperwork milestone stage. -/
def paperworkStage : String :=
  "Paperwork Received"

/-- Modelled from the spec: the configured product milestone stage. -/
def productStage : String :=
  "Product Received"

/-- Modelled from the spec: the paperwork flag of a group holds iff the
configured paperwork stage value appears in its stage set. -/
def groupPaperwork (g : OrderGroup) : Bool :=
  decide (paperworkStage ∈ g.stagesSeen)

/-- Modelled from the spec: the product flag of a group holds iff the
configured product stage value appears in its stage set. -/
def groupProduct (g : OrderGroup) : Bool :=
  decide (productStage ∈ g.stagesSeen)

/-- Whether stage value `s` is recorded for key `k` in the mapping. -/
def hasStage (m : List (String × OrderGroup)) (k s : String) : Bool :=
  decide (s ∈ stagesOf m k)

/-- The paperwork-received flag of the group at key `k` (false when the key
is absent). -/
def paperworkReceivedOf (m : List (String × OrderGroup)) (k : String) : Bool :=
  hasStage m k paperworkStage

/-- The product-received flag of the group at key `k` (false when the key is
absent). -/
def productReceivedOf (m : List (String × OrderGroup)) (k : String) : Bool :=
  hasStage m k productStage

/-- The keys of the group mapping, in insertion order. -/
def keysOf (m : List (String × OrderGroup)) : List String :=
  m.map Prod.fst

theorem mem_addSeen (v s : String) (l : List String) :
    s ∈ addSeen v l ↔ s ∈ l ∨ (s = v ∧ v ≠ "") := by
  by_cases h1 : v = ""
  · simp [addSeen, h1]
  · by_cases h2 : v ∈ l
    · simp only [addSeen, if_pos (Or.inr h2)]
      constructor
      · exact fun h => Or.inl h
      · rintro (h | ⟨rfl, -⟩)
        · exact h
        · exact h2
    · have : ¬(v = "" ∨ v ∈ l) := by
        rintro (h | h)
        · exact h1 h
        · exact h2 h
      simp only [addSeen, if_neg this, List.mem_append, List.mem_singleton]
      constructor
      · rintro (h | rfl)
        · exact Or.inl h
        · exact Or.inr ⟨rfl, h1⟩
      · rintro (h | ⟨rfl, -⟩)
        · exact Or.inl h
        · exact Or.inr rfl

theorem lookupG_upsert (k' k : String) (r : RawRow)
    (m : List (String × OrderGroup)) :
    lookupG (upsert k' r m) k =
      if k' = k then
        some (updateGroup r ((lookupG m k').getD emptyGroup))
      else lookupG m k := by
  induction m with
  | nil => simp [upsert, lookupG]
  | cons p rest ih =>
    obtain ⟨k₀, g₀⟩ := p
    by_cases h0 : k₀ = k'
    · subst h0
      by_cases hk : k₀ = k
      · subst hk
        simp [upsert, lookupG]
      · simp [upsert, lookupG, hk]
    · by_cases hk : k₀ = k
      · subst hk
        have hne : k' ≠ k₀ := fun h => h0 h.symm
        simp [upsert, lookupG, h0, hne]
      · simp [upsert, lookupG, h0, hk, ih]

theorem stagesOf_aggStep (acc : List (String × OrderGroup)) (r : RawRow)
    (k s : String) :
    s ∈ stagesOf (aggStep acc r) k ↔
      s ∈ stagesOf acc k ∨
        (emptyKeyRow r = false ∧ rowKey r = k ∧ s = r.stage ∧ r.stage ≠ "") := by
  by_cases he : emptyKeyRow r
  · simp [aggStep, he]
  · have he' : emptyKeyRow r = false := by simpa using he
    by_cases hk : rowKey r = k
    · subst hk
      have hstep : stagesOf (aggStep acc r) (rowKey r) =
          addSeen r.stage (stagesOf acc (rowKey r)) := by
        simp [aggStep, he, stagesOf, lookupG_upsert, updateGroup]
      rw [hstep, mem_addSeen]
      simp [he']
    · simp [aggStep, he, stagesOf, lookupG_upsert, hk]

theorem stagesOf_aggregateFrom (rows : List RawRow) :
    ∀ (acc : List (String × OrderGroup)) (k s : String),
      s ∈ stagesOf (aggregateFrom acc rows) k ↔
        s ∈ stagesOf acc k ∨
          ∃ r ∈ rows,
            emptyKeyRow r = false ∧ rowKey r = k ∧ s = r.stage ∧ r.stage ≠ "" := by
  induction rows with
  | nil => simp [aggregateFrom]
  | cons r rs ih =>
    intro acc k s
    simp only [aggregateFrom]
    rw [ih (aggStep acc r) k s, stagesOf_aggStep]
    simp only [List.mem_cons]
    constructor
    · rintro ((h | h) | ⟨r', hr', h⟩)
      · exact Or.inl h
      · exact Or.inr ⟨r, Or.inl rfl, h⟩
      · exact Or.inr ⟨r', Or.inr hr', h⟩
    · rintro (h | ⟨r', (rfl | hr'), h⟩)
      · exact Or.inl (Or.inl h)
      · exact Or.inl (Or.inr h)
      · exact Or.inr ⟨r', hr', h⟩

theorem mem_stagesOf_aggregate (rows : List RawRow) (k s : String) :
    s ∈ stagesOf (aggregate rows) k ↔
      ∃ r ∈ rows,
        emptyKeyRow r = false ∧ rowKey r = k ∧ s = r.stage ∧ r.stage ≠ "" := by
  have h := stagesOf_aggregateFrom rows [] k s
  simpa [aggregate, stagesOf, lookupG, emptyGroup] using h

theorem hasStage_perm (rows rows' : List RawRow) (hp : rows.Perm rows')
    (k s : String) :
    hasStage (aggregate rows) k s = hasStage (aggregate rows') k s := by
  unfold hasStage
  rw [decide_eq_decide, mem_stagesOf_aggregate, mem_stagesOf_aggregate]
  constructor
  · rintro ⟨r, hr, h⟩
    exact ⟨r, hp.mem_iff.mp hr, h⟩
  · rintro ⟨r, hr, h⟩
    exact ⟨r, hp.mem_iff.mpr hr, h⟩

/-- C4: for every row sequence and every permutation of it, aggregate yields
the same paperwork-received and product-received flag values per group (the
flags depend only on set membership of stage values, not on arrival
order). The spec additionally allows the per-group latest-timestamp value to
depend on row order; being a permission it imposes no obligation here. -/
theorem C4_flags_order_independent (rows rows' : List RawRow)
    (hp : rows.Perm rows') (k : String) :
    paperworkReceivedOf (aggregate rows) k =
        paperworkReceivedOf (aggregate rows') k ∧
      productReceivedOf (aggregate rows) k =
        productReceivedOf (aggregate rows') k :=
  ⟨hasStage_perm rows rows' hp k paperworkStage,
   hasStage_perm rows rows' hp k productStage⟩

theorem C4_witness :
    ([(⟨"A", "1", "Paperwork Received", "x", "t1"⟩ : RawRow),
      (⟨"A", "1", "Product Received", "y", "t2"⟩ : RawRow)].Perm
        [(⟨"A", "1", "Product Received", "y", "t2"⟩ : RawRow),
         (⟨"A", "1", "Paperwork Received", "x", "t1"⟩ : RawRow)]) ∧
      paperworkReceivedOf
          (aggregate [(⟨"A", "1", "Paperwork Received", "x", "t1"⟩ : RawRow),
                      (⟨"A", "1", "Product Received", "y", "t2"⟩ : RawRow)])
          "A-1" =
        paperworkReceivedOf
          (aggregate [(⟨"A", "1", "Product Received", "y", "t2"⟩ : RawRow),
                      (⟨"A", "1", "Paperwork Received", "x", "t1"⟩ : RawRow)])
          "A-1" ∧
      productReceivedOf
          (aggregate [(⟨"A", "1", "Paperwork Received", "x", "t1"⟩ : RawRow),
                      (⟨"A", "1", "Product Received", "y", "t2"⟩ : RawRow)])
          "A-1" =
        productReceivedOf
          (aggregate [(⟨"A", "1", "Product Received", "y", "t2"⟩ : RawRow),
                      (⟨"A", "1", "Paperwork Received", "x", "t1"⟩ : RawRow)])
          "A-1" := by
  refine ⟨List.Perm.swap _ _ _, ?_, ?_⟩
  · exact (C4_flags_order_independent _ _ (List.Perm.swap _ _ _) "A-1").1
  · exact (C4_flags_order_independent _ _ (List.Perm.swap _ _ _) "A-1").2

/-! ## Summary builder -/

/-- Modelled from the spec: the DashboardSummary counts consumed by
`setSummary` in `src/dashboard/app.js` — total groups and the counts per
classification bucket. -/
structure DashboardSummary where
  total_orders_in_view : Nat
  complete_both : Nat
  partial_one : Nat
  paperwork_only : Nat
  product_only : Nat
deriving Repr, DecidableEq, Inhabited

/-- Modelled from the spec: `summarize` is a pure counting pass over the
group mapping — total groups plus one count per classification bucket. -/
def summarize (m : List (String × OrderGroup)) : DashboardSummary :=
  { total_orders_in_view := m.length
    complete_both :=
      (m.filter fun p => groupPaperwork p.2 && groupProduct p.2).length
    partial_one :=
      (m.filter fun p => groupPaperwork p.2 != groupProduct p.2).length
    paperwork_only :=
      (m.filter fun p => groupPaperwork p.2 && !groupProduct p.2).length
    product_only :=
      (m.filter fun p => !groupPaperwork p.2 && groupProduct p.2).length }

theorem keysOf_upsert (k : String) (r : RawRow)
    (m : List (String × OrderGroup)) :
    keysOf (upsert k r m) =
      if k ∈ keysOf m then keysOf m else keysOf m ++ [k] := by
  induction m with
  | nil => simp [upsert, keysOf]
  | cons p rest ih =>
    obtain ⟨k₀, g₀⟩ := p
    by_cases h0 : k₀ = k
    · subst h0
      simp [upsert, keysOf]
    · have hne : k ≠ k₀ := fun h => h0 h.symm
      simp only [upsert, if_neg h0, keysOf, List.map_cons, List.mem_cons]
      rw [show keysOf (upsert k r rest) = List.map Prod.fst (upsert k r rest)
          from rfl] at ih
      by_cases hk : k ∈ List.map Prod.fst rest
      · simp [keysOf] at ih
        simp [ih, hk, hne]
      · simp [keysOf] at ih
        simp [ih, hk, hne]

theorem nodup_keysOf_aggStep (acc : List (String × OrderGroup)) (r : RawRow)
    (h : (keysOf acc).Nodup) : (keysOf (aggStep acc r)).Nodup := by
  by_cases he : emptyKeyRow r
  · simpa [aggStep, he] using h
  · simp only [aggStep, if_neg he, keysOf_upsert]
    by_cases hk : rowKey r ∈ keysOf acc
    · simpa [hk] using h
    · rw [if_neg hk]
      have hperm : (keysOf acc ++ [rowKey r]).Perm (rowKey r :: keysOf acc) :=
        List.perm_append_singleton (rowKey r) (keysOf acc)

      rw [hperm.nodup_iff]
      exact List.nodup_cons.mpr ⟨hk, h⟩

theorem nodup_keysOf_aggregateFrom (rows : List RawRow) :
    ∀ acc : List (String × OrderGroup),
      (keysOf acc).Nodup → (keysOf (aggregateFrom acc rows)).Nodup := by
  induction rows with
  | nil => intro acc h; simpa [aggregateFrom] using h
  | cons r rs ih =>
    intro acc h
    exact ih (aggStep acc r) (nodup_keysOf_aggStep acc r h)

theorem nodup_keysOf_aggregate (rows : List RawRow) :
    (keysOf (aggregate rows)).Nodup :=
  nodup_keysOf_aggregateFrom rows [] (by simp [keysOf])

/-- C3: for every input row sequence, including the empty one, the total
count reported by `summarize (aggregate rows)` equals the number of distinct
keys of the mapping returned by `aggregate`, and summarize of the mapping of
zero rows yields a zero total. -/
theorem C3_total_counts_distinct_keys (rows : List RawRow) :
    (summarize (aggregate rows)).total_orders_in_view =
        (keysOf (aggregate rows)).dedup.length ∧
      (summarize (aggregate ([] : List RawRow))).total_orders_in_view = 0 := by
  constructor
  · rw [(nodup_keysOf_aggregate rows).dedup]
    simp [summarize, keysOf]
  · rfl

/-! ## Dashboard client rendering (src/dashboard/app.js) -/

/-- A per-group order record as consumed by the dashboard client; the fields
read by `statusBadge` and the classification flags. -/
structure OrderRecord where
  order_key : String
  order_type : String
  partial_type : String
  paperwork_received : Bool
  product_received : Bool
deriving Repr, DecidableEq, Inhabited

/-- From `src/dashboard/app.js` lines 14-22: the status badge rendered for an
order — Complete when `order_type` is "complete", Paperwork Only when
`partial_type` is "paperwork_only", and the Product Only badge for every
other record. -/
def statusBadge (o : OrderRecord) : String :=
  if o.order_type = "complete" then
    "<span class=\"badge b-complete\">Complete</span>"
  else if o.partial_type = "paperwork_only" then
    "<span class=\"badge b-paperwork\">Paperwork Only</span>"
  else
    "<span class=\"badge b-product\">Product Only</span>"

/-- The total of `summarize` splits exactly into complete, paperwork-only,
product-only, and the groups with neither flag: no group vanishes from the
total. -/
theorem summarize_partition (m : List (String × OrderGroup)) :
    (summarize m).total_orders_in_view =
      (summarize m).complete_both + (summarize m).paperwork_only +
        (summarize m).product_only +
        (m.filter fun p => !groupPaperwork p.2 && !groupProduct p.2).length := by
  simp only [summarize]
  induction m with
  | nil => rfl
  | cons p rest ih =>
    simp only [List.filter_cons, List.length_cons]
    cases hpw : groupPaperwork p.2 <;> cases hpr : groupProduct p.2 <;>
      simp [hpw, hpr] <;> omega

theorem C2_counterexample :
    statusBadge ⟨"A-1", "partial", "none", false, false⟩ =
        statusBadge ⟨"B-2", "partial", "product_only", false, true⟩ ∧
      statusBadge ⟨"A-1", "partial", "none", false, false⟩ =
        "<span class=\"badge b-product\">Product Only</span>" := by
  exact ⟨rfl, rfl⟩

/-- C2 (amended): the dashboard rendering has no dedicated bucket for a
group whose paperwork-received and product-received flags are both false —
`statusBadge` falls through to the Product Only badge for every record that
is neither "complete" nor "paperwork_only", neither-flag records included —
while the summarize total still counts every group: it equals the sum of the
complete, paperwork-only, product-only and neither-flag bucket sizes. -/
theorem C2_neither_flag_bucket (o : OrderRecord)
    (h1 : o.paperwork_received = false) (h2 : o.product_received = false)
    (h3 : o.order_type ≠ "complete") (h4 : o.partial_type ≠ "paperwork_only")
    (m : List (String × OrderGroup)) :
    statusBadge o = "<span class=\"badge b-product\">Product Only</span>" ∧
      (summarize m).total_orders_in_view =
        (summarize m).complete_both + (summarize m).paperwork_only +
          (summarize m).product_only +
          (m.filter fun p => !groupPaperwork p.2 && !groupProduct p.2).length := by
  exact ⟨by simp [statusBadge, h3, h4], summarize_partition m⟩

theorem C2_witness :
    (⟨"A-1", "partial", "none", false, false⟩ : OrderRecord).paperwork_received
        = false ∧
      (⟨"A-1", "partial", "none", false, false⟩ : OrderRecord).product_received
        = false ∧
      (⟨"A-1", "partial", "none", false, false⟩ : OrderRecord).order_type
        ≠ "complete" ∧
      (⟨"A-1", "partial", "none", false, false⟩ : OrderRecord).partial_type
        ≠ "paperwork_only" ∧
      statusBadge ⟨"A-1", "partial", "none", false, false⟩ =
        "<span class=\"badge b-product\">Product Only</span>" ∧
      (summarize [("A-1", (⟨["x"], ["Other"], "t", 1⟩ : OrderGroup))]
          ).total_orders_in_view =
        (summarize [("A-1", (⟨["x"], ["Other"], "t", 1⟩ : OrderGroup))]
            ).complete_both +
          (summarize [("A-1", (⟨["x"], ["Other"], "t", 1⟩ : OrderGroup))]
              ).paperwork_only +
          (summarize [("A-1", (⟨["x"], ["Other"], "t", 1⟩ : OrderGroup))]
              ).product_only +
          ([("A-1", (⟨["x"], ["Other"], "t", 1⟩ : OrderGroup))].filter
              fun p => !groupPaperwork p.2 && !groupProduct p.2).length := by
  refine ⟨rfl, rfl, by decide, by decide, ?_, ?_⟩
  · exact (C2_neither_flag_bucket ⟨"A-1", "partial", "none", false, false⟩
      rfl rfl (by decide) (by decide) []).1
  · exact (C2_neither_flag_bucket ⟨"A-1", "partial", "none", false, false⟩
      rfl rfl (by decide) (by decide)
      [("A-1", (⟨["x"], ["Other"], "t", 1⟩ : OrderGroup))]).2

/-! ## Live ingestion and the orders endpoint -/

/-- Modelled from the spec: the process-wide store — the accumulated row
sequence (bootstrap rows then live rows in arrival order), the append-only
event log of accepted webhook payloads, and the last-received-webhook
timestamp (absent before any accepted webhook). -/
structure ServerState where
  rows : List RawRow
  eventLog : List String
  lastLiveEventAt : Option String
deriving Repr, DecidableEq, Inhabited

/-- Outcome of a webhook POST. -/
inductive WebhookResult where
  | accepted : WebhookResult
  | unauthorized : WebhookResult
deriving Repr, DecidableEq

/-- Modelled from the spec: the store after initialization from the bootstrap
CSV, before any live event. -/
def initServerState (bootstrapRows : List RawRow) : ServerState :=
  ⟨bootstrapRows, [], none⟩

/-- Modelled from the spec: the webhook handler — the shared-secret query
parameter is checked for exact string equality; on a match the event row is
appended to the row sequence, the raw payload is appended to the event log
and the live-sync timestamp is updated; on a mismatch the request is
rejected with an authorization failure and the state is left untouched. -/
def handleWebhook (cfgSecret : String) (givenSecret : Option String)
    (payload : RawRow) (rawBody now : String) (st : ServerState) :
    ServerState × WebhookResult :=
  if givenSecret = some cfgSecret then
    ({ rows := st.rows ++ [payload]
       eventLog := st.eventLog ++ [rawBody]
       lastLiveEventAt := some now }, .accepted)
  else
    (st, .unauthorized)

/-- A JSON value, as produced by the orders endpoint. -/
inductive Json where
  | str : String → Json
  | num : Nat → Json
  | flag : Bool → Json
  | arr : List Json → Json
  | obj : List (String × Json) → Json

/-- Modelled from the spec: the JSON record serialized for one group. -/
def groupRecordJson (p : String × OrderGroup) : Json :=
  .obj [("order_key", .str p.1),
        ("paperwork_received", .flag (groupPaperwork p.2)),
        ("product_received", .flag (groupProduct p.2)),
        ("latest_added_time", .str p.2.latestTime),
        ("rows_for_order", .num p.2.rowCount)]

/-- Modelled from the spec: the DashboardSummary counts serialized to JSON
(the members read by `setSummary` in `src/dashboard/app.js`). -/
def summaryJson (s : DashboardSummary) : Json :=
  .obj [("total_orders_in_view", .num s.total_orders_in_view),
        ("complete_both", .num s.complete_both),
        ("partial_one", .num s.partial_one),
        ("paperwork_only", .num s.paperwork_only),
        ("product_only", .num s.product_only)]

/-- Modelled from the spec: the `meta` member —
`last_live_event_at` is a timestamp or absent. -/
def metaJson (last : Option String) : Json :=
  .obj (match last with
    | some t => [("last_live_event_at", Json.str t)]
    | none => [])

/-- Modelled from the spec: a successful data fetch (GET /api/orders) runs
the full normalize-aggregate-summarize pipeline over the accumulated rows
and responds with the three top-level members orders, summary, meta. -/
def ordersResponse (st : ServerState) : Json :=
  .obj [("orders", .arr ((aggregate (normalize st.rows)).map groupRecordJson)),
        ("summary", summaryJson (summarize (aggregate (normalize st.rows)))),
        ("meta", metaJson st.lastLiveEventAt)]

/-- The member names of a top-level JSON object. -/
def topLevelKeys : Json → List String
  | .obj members => members.map Prod.fst
  | _ => []

/-- Look up a member of a JSON object. -/
def jsonMember (j : Json) (k : String) : Option Json :=
  match j with
  | .obj members => (members.find? fun p => p.1 == k).map Prod.snd
  | _ => none

/-- C5: a webhook POST whose shared-secret query parameter does not exactly
equal the configured secret is rejected with an authorization error, the
accumulated row sequence and the event log are unchanged (the whole state is
returned as-is), and a subsequent fetch of orders returns the same document
as before the rejected post. -/
theorem C5_wrong_secret_rejected (cfgSecret : String)
    (givenSecret : Option String) (payload : RawRow) (rawBody now : String)
    (st : ServerState) (h : givenSecret ≠ some cfgSecret) :
    (handleWebhook cfgSecret givenSecret payload rawBody now st).1 = st ∧
      (handleWebhook cfgSecret givenSecret payload rawBody now st).2 =
        WebhookResult.unauthorized ∧
      ordersResponse
          (handleWebhook cfgSecret givenSecret payload rawBody now st).1 =
        ordersResponse st := by
  simp [handleWebhook, h]

theorem C5_witness :
    (some "wrong" : Option String) ≠ some "s3cret" ∧
      (handleWebhook "s3cret" (some "wrong")
          (⟨"A", "1", "Paperwork Received", "x", "t"⟩ : RawRow) "raw" "now"
          (initServerState [])).1 = initServerState [] ∧
      (handleWebhook "s3cret" (some "wrong")
          (⟨"A", "1", "Paperwork Received", "x", "t"⟩ : RawRow) "raw" "now"
          (initServerState [])).2 = WebhookResult.unauthorized ∧
      ordersResponse (handleWebhook "s3cret" (some "wrong")
          (⟨"A", "1", "Paperwork Received", "x", "t"⟩ : RawRow) "raw" "now"
          (initServerState [])).1 = ordersResponse (initServerState []) := by
  refine ⟨by decide, ?_⟩
  exact C5_wrong_secret_rejected "s3cret" (some "wrong")
    (⟨"A", "1", "Paperwork Received", "x", "t"⟩ : RawRow) "raw" "now"
    (initServerState []) (by decide)

/-- C8: every successful data-fetch response is a JSON document with exactly
the three top-level members orders, summary and meta; orders holds the list
of per-group records, summary holds the DashboardSummary counts, and meta
holds `last_live_event_at`, which carries the timestamp when one is set and
is absent otherwise — in particular absent in the initial state, before any
webhook has been accepted. -/
theorem C8_response_shape (st : ServerState) (bootstrapRows : List RawRow) :
    topLevelKeys (ordersResponse st) = ["orders", "summary", "meta"] ∧
      jsonMember (ordersResponse st) "orders" =
        some (.arr ((aggregate (normalize st.rows)).map groupRecordJson)) ∧
      jsonMember (ordersResponse st) "summary" =
        some (summaryJson (summarize (aggregate (normalize st.rows)))) ∧
      jsonMember (ordersResponse st) "meta" =
        some (metaJson st.lastLiveEventAt) ∧
      jsonMember (metaJson st.lastLiveEventAt) "last_live_event_at" =
        st.lastLiveEventAt.map Json.str ∧
      (initServerState bootstrapRows).lastLiveEventAt = none := by
  refine ⟨rfl, rfl, rfl, rfl, ?_, rfl⟩
  cases st.lastLiveEventAt <;> simp [metaJson, jsonMember]

/-! ## Dashboard boot fallback (src/dashboard/app.js lines 125-159) -/

/-- Outcome of one `fetch` call as observed by `boot`: a thrown network
error, or an HTTP response with an ok-flag and a parsed JSON body (`none`
when `.json()` throws). -/
inductive FetchOutcome (α : Type) where
  | netError : FetchOutcome α
  | response : Bool → Option α → FetchOutcome α
deriving Repr, DecidableEq

/-- Result of `boot`: the payload handed to the renderers, or the catch
handler's error path. -/
inductive BootResult (α : Type) where
  | rendered : α → BootResult α
  | failed : BootResult α
deriving Repr, DecidableEq

/-- From `src/dashboard/app.js` boot, fallback branch: fetch
`./dashboard_data.json`; a non-OK response or a JSON error throws (boot's
catch handler runs), otherwise its payload is rendered. -/
def fallbackLoad {α : Type} : FetchOutcome α → BootResult α
  | .response true (some p) => .rendered p
  | _ => .failed

/-- From `src/dashboard/app.js` boot: try `/api/orders` first; a thrown
fetch, a non-OK status or a JSON error leaves `payload` null, in which case
the static fallback is loaded. -/
def bootModel {α : Type} (live fallback : FetchOutcome α) : BootResult α :=
  match live with
  | .response true (some p) => .rendered p
  | _ => fallbackLoad fallback

/-- Whether a fetch outcome yields a usable payload. -/
def fetchYields {α : Type} : FetchOutcome α → Bool
  | .response true (some _) => true
  | _ => false

/-- C9: if fetching /api/orders throws or returns a non-OK response, boot
falls back to loading ./dashboard_data.json and renders whatever it returns;
and boot fails (the error path runs) exactly when neither source yields a
payload. -/
theorem C9_boot_fallback {α : Type} (live fallback : FetchOutcome α) :
    ((live = .netError ∨ ∃ body, live = .response false body) →
        bootModel live fallback = fallbackLoad fallback) ∧
      (bootModel live fallback = .failed ↔
        fetchYields live = false ∧ fetchYields fallback = false) := by
  constructor
  · rintro (rfl | ⟨body, rfl⟩) <;> rfl
  · cases live with
    | netError =>
      cases fallback with
      | netError => simp [bootModel, fallbackLoad, fetchYields]
      | response b p =>
        cases b <;> cases p <;> simp [bootModel, fallbackLoad, fetchYields]
    | response b p =>
      cases b <;> cases p <;>
        (cases fallback with
          | netError => simp [bootModel, fallbackLoad, fetchYields]
          | response b' p' =>
            cases b' <;> cases p' <;>
              simp [bootModel, fallbackLoad, fetchYields])

theorem C9_witness :
    ((FetchOutcome.netError : FetchOutcome Nat) = .netError ∨
        ∃ body, (FetchOutcome.netError : FetchOutcome Nat) =
          .response false body) ∧
      bootModel (FetchOutcome.netError : FetchOutcome Nat)
          (.response true (some 7)) =
        fallbackLoad (FetchOutcome.response true (some 7)) ∧
      (bootModel (FetchOutcome.netError : FetchOutcome Nat)
            (.response true (some 7)) = .failed ↔
        fetchYields (FetchOutcome.netError : FetchOutcome Nat) = false ∧
          fetchYields (FetchOutcome.response true (some 7) : FetchOutcome Nat)
            = false) := by
  refine ⟨Or.inl rfl, ?_, ?_⟩
  · exact (C9_boot_fallback FetchOutcome.netError
      (.response true (some 7))).1 (Or.inl rfl)
  · exact (C9_boot_fallback FetchOutcome.netError (.response true (some 7))).2

/-! ## Barcode dashboard escaping (src/barcode_dashboard/app.js) -/

/-- JavaScript `replaceAll` for a single-character pattern, on the character
list of a string. -/
def replaceAllChar (pat : Char) (rep : List Char) : List Char → List Char
  | [] => []
  | c :: cs => (if c = pat then rep else [c]) ++ replaceAllChar pat rep cs

/-- From `src/barcode_dashboard/app.js` escapeHtml, lines 33-40: the chained
`replaceAll` calls, ampersand first, applied to the character list. -/
def escChain (l : List Char) : List Char :=
  replaceAllChar '\'' "&#39;".data
    (replaceAllChar '"' "&quot;".data
      (replaceAllChar '>' "&gt;".data
        (replaceAllChar '<' "&lt;".data
          (replaceAllChar '&' "&amp;".data l))))

/-- From `src/barcode_dashboard/app.js` escapeHtml: replace `&`, `<`, `>`,
`"`, `'` in this order by their HTML entities. -/
def escapeHtml (s : String) : String :=
  String.mk (escChain s.data)

/-- A character that is safe to interpolate into HTML text (not one of
`<`, `>`, `"`, `'`). -/
def goodChar (c : Char) : Bool :=
  !(c == '<' || c == '>' || c == '"' || c == '\'')

/-- Every ampersand in the list is immediately followed by one of the five
entity tails, i.e. starts one of the entities
`&amp;` `&lt;` `&gt;` `&quot;` `&#39;`. -/
def ampOk : List Char → Bool
  | [] => true
  | c :: cs =>
    (if c = '&' then
      ['a', 'm', 'p', ';'].isPrefixOf cs || ['l', 't', ';'].isPrefixOf cs ||
        ['g', 't', ';'].isPrefixOf cs ||
        ['q', 'u', 'o', 't', ';'].isPrefixOf cs ||
        ['#', '3', '9', ';'].isPrefixOf cs
     else true) && ampOk cs

/-- A fully escaped HTML text cell: free of `<` `>` `"` `'` and with every
ampersand opening an entity. -/
def htmlSafeCell (s : String) : Bool :=
  s.data.all goodChar && ampOk s.data

/-- A barcode record as consumed by the barcode dashboard client. -/
structure BarcodeRecord where
  id : Nat
  order_value : String
  dropped_off_by : String
  date_time : String
  added_time : String
deriving Repr, DecidableEq, Inhabited

/-- From `src/barcode_dashboard/app.js` renderRows: `row.field || "-"`. -/
def orDash (s : String) : String :=
  if s = "" then "-" else s

/-- From `src/barcode_dashboard/app.js` renderRows, lines 59-74: the four
displayed data cells, each passed through escapeHtml. -/
def displayedCells (row : BarcodeRecord) : List String :=
  [escapeHtml (orDash row.order_value),
   escapeHtml (orDash row.dropped_off_by),
   escapeHtml (orDash row.date_time),
   escapeHtml (orDash row.added_time)]

theorem replaceAllChar_append (pat : Char) (rep l1 l2 : List Char) :
    replaceAllChar pat rep (l1 ++ l2) =
      replaceAllChar pat rep l1 ++ replaceAllChar pat rep l2 := by
  induction l1 with
  | nil => rfl
  | cons c cs ih => simp [replaceAllChar, ih]

theorem escChain_append (l1 l2 : List Char) :
    escChain (l1 ++ l2) = escChain l1 ++ escChain l2 := by
  simp [escChain, replaceAllChar_append]

theorem escChain_cons (c : Char) (l : List Char) :
    escChain (c :: l) = escChain [c] ++ escChain l := by
  have h : c :: l = [c] ++ l := rfl
  rw [h, escChain_append]

theorem escChain_amp (l : List Char) :
    escChain ('&' :: l) = '&' :: 'a' :: 'm' :: 'p' :: ';' :: escChain l := by
  rw [escChain_cons,
    show escChain ['&'] = ['&', 'a', 'm', 'p', ';'] from by decide]
  rfl

theorem escChain_lt (l : List Char) :
    escChain ('<' :: l) = '&' :: 'l' :: 't' :: ';' :: escChain l := by
  rw [escChain_cons, show escChain ['<'] = ['&', 'l', 't', ';'] from by decide]
  rfl

theorem escChain_gt (l : List Char) :
    escChain ('>' :: l) = '&' :: 'g' :: 't' :: ';' :: escChain l := by
  rw [escChain_cons, show escChain ['>'] = ['&', 'g', 't', ';'] from by decide]
  rfl

theorem escChain_quot (l : List Char) :
    escChain ('"' :: l) =
      '&' :: 'q' :: 'u' :: 'o' :: 't' :: ';' :: escChain l := by
  rw [escChain_cons,
    show escChain ['"'] = ['&', 'q', 'u', 'o', 't', ';'] from by decide]
  rfl

theorem escChain_apos (l : List Char) :
    escChain ('\'' :: l) = '&' :: '#' :: '3' :: '9' :: ';' :: escChain l := by
  rw [escChain_cons,
    show escChain ['\''] = ['&', '#', '3', '9', ';'] from by decide]
  rfl

theorem escChain_other (c : Char) (l : List Char) (h1 : c ≠ '&')
    (h2 : c ≠ '<') (h3 : c ≠ '>') (h4 : c ≠ '"') (h5 : c ≠ '\'') :
    escChain (c :: l) = c :: escChain l := by
  rw [escChain_cons,
    show escChain [c] = [c] by
      simp [escChain, replaceAllChar, h1, h2, h3, h4, h5]]
  rfl

theorem escChain_safe (l : List Char) :
    (escChain l).all goodChar = true ∧ ampOk (escChain l) = true := by
  induction l with
  | nil => exact ⟨rfl, rfl⟩
  | cons c l ih =>
    by_cases h1 : c = '&'
    · subst h1
      rw [escChain_amp]
      exact ⟨by simp [goodChar, ih.1], by simp [ampOk, ih.2]⟩
    · by_cases h2 : c = '<'
      · subst h2
        rw [escChain_lt]
        exact ⟨by simp [goodChar, ih.1], by simp [ampOk, ih.2]⟩
      · by_cases h3 : c = '>'
        · subst h3
          rw [escChain_gt]
          exact ⟨by simp [goodChar, ih.1], by simp [ampOk, ih.2]⟩
        · by_cases h4 : c = '"'
          · subst h4
            rw [escChain_quot]
            exact ⟨by simp [goodChar, ih.1], by simp [ampOk, ih.2]⟩
          · by_cases h5 : c = '\''
            · subst h5
              rw [escChain_apos]
              exact ⟨by simp [goodChar, ih.1], by simp [ampOk, ih.2]⟩
            · rw [escChain_other c l h1 h2 h3 h4 h5]
              refine ⟨by simp [goodChar, h2, h3, h4, h5, ih.1], ?_⟩
              simp [ampOk, h1, ih.2]

/-- Output of escapeHtml is always a fully escaped HTML text cell. -/
theorem escapeHtml_safe (s : String) :
    htmlSafeCell (escapeHtml s) = true := by
  have h := escChain_safe s.data
  simp [htmlSafeCell, escapeHtml, h.1, h.2]

theorem C10_counterexample :
    '&' ∈ (escapeHtml "&").data ∧ escapeHtml "&" = "&amp;" := by
  refine ⟨by decide, by decide⟩

/-- C10 (amended): every displayed order_value, dropped_off_by, date_time
and added_time cell of the barcode dashboard's renderRows is passed through
escapeHtml, whose output for every input string contains none of the raw
characters `<`, `>`, `"`, `'`, and in which every ampersand is the start of
one of the entities `&amp;` `&lt;` `&gt;` `&quot;` `&#39;` (a raw `&` is
replaced by `&amp;`, so the output does contain ampersands, but only as
entity heads). -/
theorem C10_cells_escaped (row : BarcodeRecord) :
    (displayedCells row).all htmlSafeCell = true := by
  simp [displayedCells, escapeHtml_safe]

end PkTrack
